import Mathlib

/-!
Shallow embedding of the `middleware` Go package (raywall/go-middleware):
`chain.go`, `metadata.go` and `bultin.go`.

Go's `any` values are modelled by `GoVal`, `context.Context` by an
association list of typed keys (`context.WithValue` prepends a binding,
`ctx.Value` returns the most recent one, nil when absent), `error` by
`GoErr`, and the result of a middleware call by `Outcome`: either a normal
return `(ctx, output, err)` or a propagating runtime panic.  All machine
integers of the program (`int`, `time.Duration`, instants of `time.Time`)
are modelled as `Int`.
-/

set_option autoImplicit false

/-- Go interface values (`any`): nil, strings, booleans and integers cover
every value the embedded code stores or compares. -/
inductive GoVal where
  | nil
  | str (s : String)
  | bool (b : Bool)
  | int (n : Int)
  deriving DecidableEq, Repr

/-- Context keys.  Go distinguishes keys by dynamic type as well as value:
`AddMetadata` uses a plain `string` key, `metadata.go` uses the private
`metadataKey` string type, and `chain.go` uses the singleton struct types
`chainNameKey` and `middlewareIndexKey`.  Distinct constructors model the
distinct Go types, so keys of different types never collide. -/
inductive CtxKey where
  | rawString (s : String)
  | metadata (s : String)
  | chainName
  | middlewareIndex
  deriving DecidableEq, Repr

/-- `context.Context` as the chain of `WithValue` bindings, most recent
first. -/
abbrev Context := List (CtxKey × GoVal)

/-- `context.WithValue(ctx, k, v)`: a child context with one more binding. -/
def withValue (ctx : Context) (k : CtxKey) (v : GoVal) : Context :=
  (k, v) :: ctx

/-- `ctx.Value(k)`: the most recently bound value for `k`, nil when the key
was never bound. -/
def ctxValue : Context → CtxKey → GoVal
  | [], _ => .nil
  | (k', v) :: rest, k => if k' = k then v else ctxValue rest k

/-- True when some binding for `k` exists anywhere on the context chain. -/
def hasKey : Context → CtxKey → Bool
  | [], _ => false
  | (k', _) :: rest, k => if k' = k then true else hasKey rest k

/-- Go `error` values: `errors.New`/literal errors, and `fmt.Errorf` with a
`%w`-wrapped cause (every `fmt.Errorf` in this package wraps). -/
inductive GoErr where
  | errorNew (s : String)
  | errorfWrap (msg : String) (wrapped : GoErr)
  deriving DecidableEq, Repr

/-- `err.Error()`: the message string of an error. -/
def errMessage : GoErr → String
  | .errorNew s => s
  | .errorfWrap msg _ => msg

/-- Result of calling a middleware (or a whole chain): a normal Go return
`(context, output, error)` or a runtime panic propagating to the caller. -/
inductive Outcome where
  | ok (ctx : Context) (output : GoVal) (err : Option GoErr)
  | panicked (v : GoVal)
  deriving DecidableEq, Repr

/-- `MiddlewareFunc` from `chain.go`: receives a context and input, returns
a context, output and error — or panics. -/
def MiddlewareFunc := Context → GoVal → Outcome

/-- `Chain` from `chain.go`: a middleware slice and an optional name. -/
structure Chain where
  middlewares : List MiddlewareFunc
  name : String

/-- `fmt.Errorf("middleware %d failed: %w", i, err)` in `Chain.Then`. -/
def wrapMiddlewareError (i : Nat) (e : GoErr) : GoErr :=
  .errorfWrap ("middleware " ++ toString i ++ " failed: " ++ errMessage e) e

/-- The two lines of `Chain.Then` that seed the starting context: the chain
name is added only when non-empty. -/
def initialCtx (name : String) (ctx : Context) : Context :=
  if name ≠ "" then withValue ctx .chainName (.str name) else ctx

/-- The `for i, mw := range c.middlewares` loop of `Chain.Then`: each
iteration stores the index, calls the middleware, and on error returns the
middleware's context, nil output and the wrapped error; a panic in a
middleware propagates (the loop has no recover). -/
def thenLoop : List MiddlewareFunc → Nat → Context → GoVal → Outcome
  | [], _, ctx, output => .ok ctx output none
  | mw :: rest, i, ctx, output =>
    let ctx1 := withValue ctx .middlewareIndex (.int i)
    match mw ctx1 output with
    | .panicked v => .panicked v
    | .ok ctx2 _ (some e) => .ok ctx2 .nil (some (wrapMiddlewareError i e))
    | .ok ctx2 out2 none => thenLoop rest (i + 1) ctx2 out2

/-- `Chain.Then` from `chain.go`: the empty chain returns the input
unchanged; otherwise the name is seeded and the loop runs. -/
def Chain.Then (c : Chain) (ctx : Context) (input : GoVal) : Outcome :=
  if c.middlewares.isEmpty then .ok ctx input none
  else thenLoop c.middlewares 0 (initialCtx c.name ctx) input

/-- `Chain.Append`: `make` a slice of combined length, `copy` the original
then the added middlewares; name carried over. -/
def Chain.Append (c : Chain) (middlewares : List MiddlewareFunc) : Chain :=
  { middlewares := c.middlewares ++ middlewares, name := c.name }

/-- `Chain.Prepend`: added middlewares first, then the original ones. -/
def Chain.Prepend (c : Chain) (middlewares : List MiddlewareFunc) : Chain :=
  { middlewares := middlewares ++ c.middlewares, name := c.name }

/-- `Chain.Clone`: a copy of the middleware slice with the same name. -/
def Chain.Clone (c : Chain) : Chain :=
  { middlewares := c.middlewares, name := c.name }

/-- `Chain.Len`. -/
def Chain.Len (c : Chain) : Nat :=
  c.middlewares.length

/-- `Chain.Name`. -/
def Chain.Name (c : Chain) : String :=
  c.name

/-- `GetChainName` from `chain.go`: `ctx.Value(ChainNameKey).(string)`. -/
def GetChainName (ctx : Context) : String × Bool :=
  match ctxValue ctx .chainName with
  | .str s => (s, true)
  | _ => ("", false)

/-- `AddMetadata` from `metadata.go`: stores under the plain `string` key. -/
def AddMetadata (ctx : Context) (key : String) (value : GoVal) : Context :=
  withValue ctx (.rawString key) value

/-- `GetMetadata` from `metadata.go`: `value := ctx.Value(key)` with the
plain `string` key, found reported as `value != nil`. -/
def GetMetadata (ctx : Context) (key : String) : GoVal × Bool :=
  let value := ctxValue ctx (.rawString key)
  (value, value != .nil)

/-- `GetMetadataString` from `metadata.go`: `ctx.Value(key).(string)`. -/
def GetMetadataString (ctx : Context) (key : String) : String × Bool :=
  match ctxValue ctx (.rawString key) with
  | .str s => (s, true)
  | _ => ("", false)

/-- `SetUserID` from `metadata.go`: stores under `userKey`, a value of the
private `metadataKey` string type. -/
def SetUserID (ctx : Context) (userID : String) : Context :=
  withValue ctx (.metadata "user") (.str userID)

/-- `SetRequestID` from `metadata.go`: stores under `requestKey =
metadataKey("request_id")`. -/
def SetRequestID (ctx : Context) (requestID : String) : Context :=
  withValue ctx (.metadata "request_id") (.str requestID)

/-- `GetRequestID` from `metadata.go`:
`ctx.Value(requestKey).(string)` — found only when the stored value is a
string. -/
def GetRequestID (ctx : Context) : String × Bool :=
  match ctxValue ctx (.metadata "request_id") with
  | .str s => (s, true)
  | _ => ("", false)

/-- `RequestIDWithGenerator` from `bultin.go`: when `GetRequestID` reports
the identifier absent the stage returns the context and input unchanged;
otherwise it calls the generator and overwrites the identifier. -/
def RequestIDWithGenerator (generator : Unit → String) : MiddlewareFunc :=
  fun ctx input =>
    if !(GetRequestID ctx).2 then .ok ctx input none
    else
      let requestID := generator ()
      .ok (SetRequestID ctx requestID) input none

/-- The `hextable` of `encoding/hex`: nibble `n` renders as
`"0123456789abcdef"[n]`. -/
def hexDigit (n : Nat) : Char :=
  "0123456789abcdef".data.getD n '0'

/-- `hex.EncodeToString` on one byte: high nibble then low nibble. -/
def hexEncodeByte (b : Nat) : List Char :=
  [hexDigit (b / 16), hexDigit (b % 16)]

/-- `hex.EncodeToString` on a byte slice. -/
def hexEncodeList : List Nat → List Char
  | [] => []
  | b :: bs => hexEncodeByte b ++ hexEncodeList bs

/-- `generateRequestID` from `bultin.go`: `rand.Read` fills an 8-byte
buffer from the crypto random source — modelled as the `randomBytes`
parameter (the function's only dependency; it takes no request input) —
and the buffer is hex-encoded. -/
def generateRequestID (randomBytes : List Nat) : String :=
  String.mk (hexEncodeList randomBytes)

/-- The deferred `recover()` of `Recovery`: it surrounds only the body of
the `Recovery` middleware itself.  If the guarded body panicked, the
recover handler would log and fall through, so the function would return
the zero values of its unnamed results (nil context, nil output, nil
error); the body `return ctx, input, nil` cannot panic, so this branch is
unreachable. -/
def deferRecover (body : Outcome) : Outcome :=
  match body with
  | .panicked _ => .ok [] .nil none
  | o => o

/-- `Recovery` from `bultin.go`: its body is `return ctx, input, nil`
guarded by the deferred recover above.  It does not call any downstream
middleware — stages of a chain run sequentially after it returns. -/
def Recovery : MiddlewareFunc :=
  fun ctx input => deferRecover (.ok ctx input none)

/-- `Validation` from `bultin.go`: on validator failure returns the
wrapped error with nil output, otherwise records `validated` metadata. -/
def Validation (validator : GoVal → Option GoErr) : MiddlewareFunc :=
  fun ctx input =>
    match validator input with
    | some e => .ok ctx .nil (some (.errorfWrap ("validation failed: " ++ errMessage e) e))
    | none => .ok (AddMetadata ctx "validated" (.bool true)) input none

/-- The `tokenBucket` state of `RateLimit` in `bultin.go`.  Go `int`
tokens/capacity, `time.Duration` refill rate and `time.Time` instants are
all modelled as `Int`. -/
structure TokenBucket where
  tokens : Int
  capacity : Int
  refillRate : Int
  lastRefill : Int
  deriving DecidableEq, Repr

/-- The bucket built by `RateLimit(requestsPerDuration, duration)` at
construction time `now` (`time.Now()`). -/
def rateLimitInit (requestsPerDuration duration now : Int) : TokenBucket :=
  { tokens := requestsPerDuration
    capacity := requestsPerDuration
    refillRate := duration
    lastRefill := now }

/-- One invocation of the closure returned by `RateLimit`, at instant
`now`: refill to capacity when at least `refillRate` has elapsed since the
last refill; fail with "rate limit exceeded" when no tokens remain (the
bucket is left untouched); otherwise consume a token and record the
remaining count as `rate_limit_remaining` metadata.  Returns the updated
bucket together with the middleware's outcome. -/
def rateLimitStep (b : TokenBucket) (now : Int) (ctx : Context) (input : GoVal) :
    TokenBucket × Outcome :=
  let b1 := if b.refillRate ≤ now - b.lastRefill then
      { b with tokens := b.capacity, lastRefill := now } else b
  if b1.tokens ≤ 0 then
    (b1, .ok ctx .nil (some (.errorNew "rate limit exceeded")))
  else
    let b2 := { b1 with tokens := b1.tokens - 1 }
    (b2, .ok (AddMetadata ctx "rate_limit_remaining" (.int b2.tokens)) input none)

/-- The bucket after `n` sequential invocations, all at the construction
instant `t0`, of a `RateLimit(C, D)` stage built at `t0`. -/
def burstState (C D t0 : Int) (ctx : Context) (input : GoVal) : Nat → TokenBucket
  | 0 => rateLimitInit C D t0
  | n + 1 => (rateLimitStep (burstState C D t0 ctx input n) t0 ctx input).1

/-! Concrete middleware stages used to exercise the chain. -/

/-- A stage that forwards context and input unchanged. -/
def passStage : MiddlewareFunc := fun ctx out => .ok ctx out none

/-- A stage that reports an error, also returning a non-nil output that
`Chain.Then` must discard. -/
def failStage : MiddlewareFunc :=
  fun ctx _ => .ok ctx (.str "partial") (some (.errorNew "boom"))

/-- A stage that raises a runtime panic carrying `v`. -/
def panicStage (v : GoVal) : MiddlewareFunc := fun _ _ => .panicked v

/-! Helper lemmas. -/

/-- Looking up a key other than the one just bound skips the new binding. -/
lemma ctxValue_withValue_ne (ctx : Context) (k k' : CtxKey) (v : GoVal)
    (h : k ≠ k') : ctxValue (withValue ctx k v) k' = ctxValue ctx k' := by
  simp [withValue, ctxValue, h]

/-- A key with no binding anywhere on the chain looks up to nil. -/
lemma ctxValue_eq_nil_of_not_hasKey :
    ∀ (ctx : Context) (key : CtxKey), hasKey ctx key = false →
      ctxValue ctx key = .nil := by
  intro ctx key
  induction ctx with
  | nil => intro _; rfl
  | cons p rest ih =>
    intro h
    obtain ⟨k', v'⟩ := p
    by_cases hk : k' = key
    · simp [hasKey, hk] at h
    · simp only [hasKey, if_neg hk] at h
      simp [ctxValue, hk, ih h]

/-- Running the loop on `l1 ++ l2` when `l1` completes without error or
panic continues into `l2` with the carried context, output and index. -/
lemma thenLoop_append_ok (l2 : List MiddlewareFunc) :
    ∀ (l1 : List MiddlewareFunc) (i : Nat) (ctx c : Context) (out o : GoVal),
      thenLoop l1 i ctx out = .ok c o none →
      thenLoop (l1 ++ l2) i ctx out = thenLoop l2 (i + l1.length) c o := by
  intro l1
  induction l1 with
  | nil =>
    intro i ctx c out o h
    simp only [thenLoop] at h
    cases h
    simp [thenLoop]
  | cons mw rest ih =>
    intro i ctx c out o h
    simp only [thenLoop, List.cons_append] at h ⊢
    cases hmw : mw (withValue ctx .middlewareIndex (.int i)) out with
    | panicked v => simp [hmw] at h
    | ok ctx2 out2 err =>
      cases err with
      | some e => simp [hmw] at h
      | none =>
        simp only [hmw] at h ⊢
        refine (ih (i + 1) ctx2 c out2 o h).trans ?_
        congr 1
        simp [List.length_cons]
        omega

/-! Claim theorems. -/

/-- C2: for every context `ctx` and input `x`, running a chain with zero
stages via `Then` returns `(ctx, x, no error)` — the empty pipeline is the
identity and never fails (whatever its name). -/
theorem then_empty_chain_identity (name : String) (ctx : Context) (input : GoVal) :
    Chain.Then ⟨[], name⟩ ctx input = .ok ctx input none := rfl

/-- C5: `Append` returns a chain whose sequence is the original stages
followed by the extension, `Prepend` the extension followed by the original
stages, and with a non-empty extension the result is a chain distinct from
the original — which, being a distinct value in this pure embedding (the Go
methods copy into fresh slices and never write through the receiver), leaves
the original chain and hence its `Then` behaviour untouched. -/
theorem append_prepend_extend_sequences (c : Chain) (e : List MiddlewareFunc)
    (he : e ≠ []) :
    (c.Append e).middlewares = c.middlewares ++ e
    ∧ (c.Prepend e).middlewares = e ++ c.middlewares
    ∧ c.Append e ≠ c ∧ c.Prepend e ≠ c := by
  refine ⟨rfl, rfl, ?_, ?_⟩
  · intro hEq
    have hlen := congrArg (fun ch => ch.middlewares.length) hEq
    simp only [Chain.Append, List.length_append] at hlen
    exact he (List.length_eq_zero.mp (by omega))
  · intro hEq
    have hlen := congrArg (fun ch => ch.middlewares.length) hEq
    simp only [Chain.Prepend, List.length_append] at hlen
    exact he (List.length_eq_zero.mp (by omega))

/-- Witness for C5 at a concrete chain and extension. -/
theorem append_prepend_extend_sequences_witness :
    (Chain.Append ⟨[], "base"⟩ [passStage]).middlewares = [] ++ [passStage]
    ∧ (Chain.Prepend ⟨[], "base"⟩ [passStage]).middlewares = [passStage] ++ []
    ∧ Chain.Append ⟨[], "base"⟩ [passStage] ≠ ⟨[], "base"⟩
    ∧ Chain.Prepend ⟨[], "base"⟩ [passStage] ≠ ⟨[], "base"⟩ :=
  append_prepend_extend_sequences ⟨[], "base"⟩ [passStage] (by simp)

/-- C6 counterexample: the key `"k"` IS set on the context (with value
nil), yet `GetMetadata` reports `found = false`, so "found=false iff the
key was never set" fails as stated. -/
theorem getMetadata_nil_value_reported_missing :
    GetMetadata (AddMetadata [] "k" .nil) "k" = (.nil, false) := rfl

/-- C6 amended: `GetMetadata` reports the most recently stored value with
`found = true` exactly when that value is non-nil; a key set to nil, like a
key never set at all, reports `(nil, false)`. -/
theorem getMetadata_found_semantics (ctx : Context) (k : String) (v : GoVal)
    (hv : v ≠ .nil) :
    GetMetadata (AddMetadata ctx k v) k = (v, true)
    ∧ GetMetadata (AddMetadata ctx k .nil) k = (.nil, false)
    ∧ (hasKey ctx (.rawString k) = false → GetMetadata ctx k = (.nil, false)) := by
  refine ⟨?_, ?_, ?_⟩
  · simp [GetMetadata, AddMetadata, withValue, ctxValue, hv]
  · simp [GetMetadata, AddMetadata, withValue, ctxValue]
  · intro h
    simp [GetMetadata, ctxValue_eq_nil_of_not_hasKey ctx _ h]

/-- Witness for C6 at concrete contexts and values. -/
theorem getMetadata_found_semantics_witness :
    GetMetadata (AddMetadata [] "k" (.str "a")) "k" = (.str "a", true)
    ∧ GetMetadata (AddMetadata [] "k" .nil) "k" = (.nil, false)
    ∧ GetMetadata [] "k" = (.nil, false) := by
  have h := getMetadata_found_semantics [] "k" (.str "a") (by decide)
  exact ⟨h.1, h.2.1, h.2.2 rfl⟩

/-- C8: when a request identifier is already present on the context, the
RequestID stage calls the generator and overwrites the identifier,
returning the input unchanged with no error. -/
theorem requestID_present_overwritten (g : Unit → String) (ctx : Context)
    (input : GoVal) (hpresent : (GetRequestID ctx).2 = true) :
    RequestIDWithGenerator g ctx input = .ok (SetRequestID ctx (g ())) input none := by
  simp [RequestIDWithGenerator, hpresent]

/-- Witness for C8: a context seeded with identifier "old" gets "new". -/
theorem requestID_present_overwritten_witness :
    RequestIDWithGenerator (fun _ => "new") (SetRequestID [] "old") .nil
      = .ok (SetRequestID (SetRequestID [] "old") "new") .nil none :=
  requestID_present_overwritten (fun _ => "new") (SetRequestID [] "old") .nil rfl

/-- C9: the string-keyed metadata bag and the typed request-identifier
accessors use disjoint key namespaces — storing under the raw string key
`"request_id"` is invisible to `GetRequestID`, and `SetRequestID` is
invisible to `GetMetadata ctx "request_id"`, because the private
`metadataKey` type is distinct from the plain string key type. -/
theorem metadata_and_requestID_namespaces_disjoint (ctx : Context)
    (v : GoVal) (s : String) :
    GetRequestID (AddMetadata ctx "request_id" v) = GetRequestID ctx
    ∧ GetMetadata (SetRequestID ctx s) "request_id" = GetMetadata ctx "request_id" := by
  constructor
  · unfold GetRequestID AddMetadata
    rw [ctxValue_withValue_ne ctx _ _ v (by decide)]
  · unfold GetMetadata SetRequestID
    rw [ctxValue_withValue_ne ctx _ _ _ (by decide)]

/-- C10: `Append`, `Prepend` and `Clone` all preserve the chain's name, and
`Clone` preserves the stage sequence as well; no operation mutates an
existing chain (every operation of `chain.go` builds a fresh value). -/
theorem chain_ops_preserve_name (c : Chain) (e : List MiddlewareFunc) :
    (c.Append e).Name = c.Name ∧ (c.Prepend e).Name = c.Name
    ∧ c.Clone.Name = c.Name ∧ c.Clone.middlewares = c.middlewares :=
  ⟨rfl, rfl, rfl, rfl⟩

/-- C1: when the stage at 0-based position `k = pre.length` is the first to
return an error, `Then` stops there — the stages in `rest` (positions
`k+1..n-1`, universally quantified, hence never invoked) do not influence
the result; the returned context is the one returned by the failing stage,
the output is nil, and the error wraps the stage's error with position `k`. -/
theorem then_stops_at_first_failing_stage
    (pre rest : List MiddlewareFunc) (mw : MiddlewareFunc) (name : String)
    (ctx ctxk ctx2 : Context) (input outk out2 : GoVal) (e : GoErr)
    (hpre : thenLoop pre 0 (initialCtx name ctx) input = .ok ctxk outk none)
    (hfail : mw (withValue ctxk .middlewareIndex (.int pre.length)) outk
      = .ok ctx2 out2 (some e)) :
    Chain.Then ⟨pre ++ mw :: rest, name⟩ ctx input
      = .ok ctx2 .nil (some (wrapMiddlewareError pre.length e)) := by
  have hne : (pre ++ mw :: rest).isEmpty = false := by
    cases pre <;> rfl
  simp only [Chain.Then, hne, Bool.false_eq_true, if_false]
  rw [thenLoop_append_ok (mw :: rest) pre 0 (initialCtx name ctx) ctxk input outk hpre]
  simp only [Nat.zero_add, thenLoop, hfail]

/-- Witness for C1: a three-stage chain whose middle stage fails; the
result carries the failing stage's context, a nil output and the error
wrapped with position 1, independently of the third stage. -/
theorem then_stops_at_first_failing_stage_witness :
    Chain.Then ⟨[passStage, failStage, passStage], ""⟩ [] .nil
      = .ok (withValue (withValue [] .middlewareIndex (.int 0)) .middlewareIndex (.int 1))
          .nil (some (wrapMiddlewareError 1 (.errorNew "boom"))) :=
  then_stops_at_first_failing_stage [passStage] [passStage] failStage ""
    [] (withValue [] .middlewareIndex (.int 0))
    (withValue (withValue [] .middlewareIndex (.int 0)) .middlewareIndex (.int 1))
    .nil .nil (.str "partial") (.errorNew "boom") rfl rfl

/-- C3 (against the code): a chain in which the `Recovery` stage precedes a
panicking stage does NOT convert the panic into a stage failure — `Then`
propagates the panic to the caller, because `Recovery`'s deferred recover
guards only its own body, which has already returned by the time the
downstream stage runs.  This contradicts `Recovery`'s own documentation. -/
theorem recovery_panic_propagates_to_caller (v : GoVal) (ctx : Context)
    (input : GoVal) :
    Chain.Then ⟨[Recovery, panicStage v], ""⟩ ctx input = .panicked v := rfl

/-- Every nibble renders to a character of the lowercase hex alphabet. -/
lemma hexDigit_mem_alphabet (n : Nat) (h : n < 16) :
    hexDigit n ∈ "0123456789abcdef".data := by
  have hall : ∀ m, m < 16 → hexDigit m ∈ "0123456789abcdef".data := by decide
  exact hall n h

/-- Hex encoding doubles the length. -/
lemma hexEncodeList_length :
    ∀ bytes : List Nat, (hexEncodeList bytes).length = 2 * bytes.length := by
  intro bytes
  induction bytes with
  | nil => rfl
  | cons b bs ih =>
    simp [hexEncodeList, hexEncodeByte, ih]
    omega

/-- Every character of the hex encoding of a byte list lies in the
lowercase hex alphabet. -/
lemma hexEncodeList_mem_alphabet :
    ∀ bytes : List Nat, (∀ b ∈ bytes, b < 256) →
      ∀ c ∈ hexEncodeList bytes, c ∈ "0123456789abcdef".data := by
  intro bytes
  induction bytes with
  | nil => intro _ c hc; simp [hexEncodeList] at hc
  | cons b bs ih =>
    intro hb c hc
    simp only [hexEncodeList, hexEncodeByte, List.cons_append, List.nil_append,
      List.mem_cons] at hc
    have hblt : b < 256 := hb b (List.mem_cons_self b bs)
    rcases hc with h | h | h
    · exact h ▸ hexDigit_mem_alphabet (b / 16) (by omega)
    · exact h ▸ hexDigit_mem_alphabet (b % 16) (by omega)
    · exact ih (fun x hx => hb x (List.mem_cons_of_mem b hx)) c h

/-- C7: on a context with no request identifier, the RequestID stage is a
pass-through (context and input unchanged, no error, no identifier
assigned); and the identifier generator — whose only dependency is the
8-byte buffer filled by the crypto random source, never the request input —
renders it as a 16-character string over the lowercase hex alphabet. -/
theorem requestID_absent_passthrough_and_generator (g : Unit → String)
    (ctx : Context) (input : GoVal) (bytes : List Nat)
    (habsent : (GetRequestID ctx).2 = false)
    (hlen : bytes.length = 8) (hbytes : ∀ b ∈ bytes, b < 256) :
    RequestIDWithGenerator g ctx input = .ok ctx input none
    ∧ (generateRequestID bytes).length = 16
    ∧ ∀ c ∈ (generateRequestID bytes).data, c ∈ "0123456789abcdef".data := by
  refine ⟨?_, ?_, ?_⟩
  · simp [RequestIDWithGenerator, habsent]
  · show (hexEncodeList bytes).length = 16
    rw [hexEncodeList_length, hlen]
  · exact hexEncodeList_mem_alphabet bytes hbytes

/-- Witness for C7 at the empty context and a concrete 8-byte buffer. -/
theorem requestID_absent_passthrough_and_generator_witness :
    RequestIDWithGenerator (fun _ => "x") [] .nil = .ok [] .nil none
    ∧ (generateRequestID [0, 17, 34, 51, 68, 85, 102, 255]).length = 16 := by
  have h := requestID_absent_passthrough_and_generator (fun _ => "x") [] .nil
    [0, 17, 34, 51, 68, 85, 102, 255] rfl rfl (by decide)
  exact ⟨h.1, h.2.1⟩

/-- With a positive refill interval, a burst of `i ≤ C` invocations at the
construction instant leaves the bucket with `C - i` tokens and the original
refill timestamp. -/
lemma burstState_closed (C D t0 : Int) (ctx : Context) (input : GoVal)
    (hD : 0 < D) :
    ∀ i : Nat, (i : Int) ≤ C →
      burstState C D t0 ctx input i = ⟨C - i, C, D, t0⟩ := by
  intro i
  induction i with
  | zero => intro _; simp [burstState, rateLimitInit]
  | succ n ih =>
    intro h
    have hn : (n : Int) ≤ C := by push_cast at h ⊢; omega
    have hrefill : ¬ (D ≤ t0 - t0) := by omega
    have htok : ¬ ((C - n : Int) ≤ 0) := by push_cast at h; omega
    rw [burstState, ih hn]
    simp only [rateLimitStep, hrefill, if_false, htok]
    simp
    ring_nf

/-- C4: for a `RateLimit` bucket of capacity `C ≥ 1` and positive refill
interval `D`, invoked sequentially at the construction instant `t0`: each
of the first `C` invocations (position `i < C`) succeeds and records
`C - i - 1` remaining tokens; the `(C+1)`-th invocation fails with the
rate-limit-exceeded error and leaves the bucket untouched (no token
consumed); and an invocation at any instant `t1` with `t1 - t0 ≥ D`
refills the bucket to full capacity, succeeds, and records `C - 1`
remaining. -/
theorem rateLimit_token_bucket_behavior (C D t0 t1 : Int) (i : Nat)
    (ctx : Context) (input : GoVal)
    (hC : 1 ≤ C) (hD : 0 < D) (hi : (i : Int) < C) (ht1 : D ≤ t1 - t0) :
    rateLimitStep (burstState C D t0 ctx input i) t0 ctx input
      = (burstState C D t0 ctx input (i + 1),
         .ok (AddMetadata ctx "rate_limit_remaining" (.int (C - i - 1))) input none)
    ∧ rateLimitStep (burstState C D t0 ctx input C.toNat) t0 ctx input
      = (burstState C D t0 ctx input C.toNat,
         .ok ctx .nil (some (.errorNew "rate limit exceeded")))
    ∧ rateLimitStep (burstState C D t0 ctx input C.toNat) t1 ctx input
      = (⟨C - 1, C, D, t1⟩,
         .ok (AddMetadata ctx "rate_limit_remaining" (.int (C - 1))) input none) := by
  have hrefill0 : ¬ (D ≤ t0 - t0) := by omega
  have hstate_i := burstState_closed C D t0 ctx input hD i (by omega)
  have hstate_i1 := burstState_closed C D t0 ctx input hD (i + 1) (by omega)
  have hstate_C := burstState_closed C D t0 ctx input hD C.toNat (by omega)
  refine ⟨?_, ?_, ?_⟩
  · rw [hstate_i, hstate_i1]
    have htok : ¬ ((C - i : Int) ≤ 0) := by omega
    simp only [rateLimitStep, hrefill0, if_false, htok]
    simp
    ring
  · rw [hstate_C]
    have htok : (C - (C.toNat : Int) : Int) ≤ 0 := by omega
    simp only [rateLimitStep, hrefill0, if_false]
    simp [htok]
  · rw [hstate_C]
    have htok : ¬ ((C : Int) ≤ 0) := by omega
    simp only [rateLimitStep, ht1, if_true]
    simp [htok]

/-- Witness for C4 with capacity 2, interval 5, built at instant 0: the
second invocation of the burst succeeds recording 0 remaining, the third
fails leaving the bucket untouched, and an invocation at instant 5 refills
and succeeds recording 1 remaining. -/
theorem rateLimit_token_bucket_behavior_witness :
    rateLimitStep (burstState 2 5 0 [] .nil 1) 0 [] .nil
      = (burstState 2 5 0 [] .nil 2,
         .ok (AddMetadata [] "rate_limit_remaining" (.int 0)) .nil none)
    ∧ rateLimitStep (burstState 2 5 0 [] .nil 2) 0 [] .nil
      = (burstState 2 5 0 [] .nil 2,
         .ok [] .nil (some (.errorNew "rate limit exceeded")))
    ∧ rateLimitStep (burstState 2 5 0 [] .nil 2) 5 [] .nil
      = (⟨1, 2, 5, 5⟩,
         .ok (AddMetadata [] "rate_limit_remaining" (.int 1)) .nil none) := by
  have h := rateLimit_token_bucket_behavior 2 5 0 5 1 [] GoVal.nil
    (by decide) (by decide) (by decide) (by decide)
  exact ⟨h.1, h.2.1, h.2.2⟩
